import Mathlib

/-!
Verification of the dataflows pipeline engine specification.

The repository source available here is the tutorial notebook
(`TUTORIAL.ipynb`): it contains the user-written steps (`lowerData`,
`add_is_guitarist_column_to_schema`, `add_is_guitarist_column`,
`text_processing_flow`, ...) and shows how `Flow`, `set_type`,
`checkpoint`, `dump_to_path` and `process`/`results` behave.  The engine
itself (the `dataflows` library) is not part of the source tree, so the
engine-side definitions below are modelled from the specification, as
their doc comments state.  Tutorial-defined step functions are translated
directly from the notebook code.
-/

namespace Dataflows

/-- Modelled from the spec: the fixed enumeration of declared field types
(the subset exercised by the tutorial: string, integer, number, boolean). -/
inductive FType where
  | string
  | integer
  | number
  | boolean
deriving DecidableEq

/-- Modelled from the spec: a field's constraint/format set; numeric casting
supports a configurable grouping character (`set_type(..., groupChar=',')`). -/
structure Constraints where
  groupChar : Option Char := none
  required : Bool := false
deriving DecidableEq

/-- Modelled from the spec: typed values kept in native semantic form after
casting.  A `number` is an exact decimal, represented by an integer mantissa
and the count of decimal places. -/
inductive Value where
  | str (s : String)
  | int (n : Int)
  | num (m : Int) (e : Nat)
  | bool (b : Bool)
deriving DecidableEq

/-- A row is an ordered mapping from field name to typed value. -/
abbrev Row : Type := List (String × Value)

/-- Modelled from the spec: a typed field of a schema. -/
structure Field where
  name : String
  ftype : FType
  constraints : Constraints := {}
deriving DecidableEq

/-- Modelled from the spec: an ordered sequence of fields. -/
structure Schema where
  fields : List Field
deriving DecidableEq

/-- Modelled from the spec: a named resource, a schema plus its rows. -/
structure Resource where
  name : String
  schema : Schema
  rows : List Row
deriving DecidableEq

/-- Modelled from the spec: an ordered sequence of resources plus
package-level metadata (the optional dataset name). -/
structure Package where
  resources : List Resource
  datasetName : Option String := none
deriving DecidableEq

/-- Modelled from the spec: the error raised when a value fails its declared
type or constraints, carrying the field name, the raw value and the violated
constraint. -/
structure CastError where
  fieldName : String
  rawValue : Value
  violated : String
deriving DecidableEq

/-- Lookup of a row value by field name. -/
def getField (r : Row) (k : String) : Option Value :=
  (List.find? (fun p => p.1 == k) r).map (fun p => p.2)

/-- Update of a row value by field name; a new name is appended at the end,
matching insertion-ordered dictionary semantics. -/
def setField (r : Row) (k : String) (v : Value) : Row :=
  if List.any r (fun p => p.1 == k) then
    List.map (fun p => if p.1 == k then (k, v) else p) r
  else
    r ++ [(k, v)]

/-- Numeric value of a decimal digit character. -/
def digitVal (c : Char) : Option Nat :=
  if c.isDigit then some (c.toNat - 48) else none

/-- Big-endian accumulation of decimal digits; fails on a non-digit. -/
def parseNatAux : List Char → Nat → Option Nat
  | [], acc => some acc
  | c :: cs, acc =>
    match digitVal c with
    | some d => parseNatAux cs (acc * 10 + d)
    | none => none

/-- Parse a non-empty all-digit character list as a natural number. -/
def parseNatChars (cs : List Char) : Option Nat :=
  match cs with
  | [] => none
  | _ => parseNatAux cs 0

/-- Parse an optionally minus-signed digit list as an integer. -/
def parseIntChars : List Char → Option Int
  | [] => none
  | c :: cs =>
    if c = '-' then (parseNatChars cs).map (fun (n : Nat) => -(n : Int))
    else (parseNatChars (c :: cs)).map (fun (n : Nat) => (n : Int))

/-- Interior of a decimal literal with no sign: integer part, optional
decimal point and fraction part, producing mantissa and decimal places. -/
def parseUnsignedNum (ds : List Char) : Option (Nat × Nat) :=
  let ip := ds.takeWhile (fun c => c != '.')
  match ds.dropWhile (fun c => c != '.') with
  | [] => (parseNatChars ds).map (fun n => (n, 0))
  | _ :: frac =>
    if frac.any (fun c => c == '.') then none
    else (parseNatChars (ip ++ frac)).map (fun n => (n, frac.length))

/-- Parse a decimal literal (optional sign, optional single decimal point)
into mantissa and decimal-place count. -/
def parseNumChars : List Char → Option (Int × Nat)
  | [] => none
  | c :: cs =>
    if c = '-' then (parseUnsignedNum cs).map (fun (p : Nat × Nat) => (-(p.1 : Int), p.2))
    else (parseUnsignedNum (c :: cs)).map (fun (p : Nat × Nat) => ((p.1 : Int), p.2))

/-- Strip the configured grouping character, if any, from a textual value. -/
def degroup (c : Constraints) (s : String) : List Char :=
  match c.groupChar with
  | some g => s.data.filter (fun ch => ch != g)
  | none => s.data

/-- Display name of a field type, used in cast-error messages. -/
def typeName : FType → String
  | .string => "string"
  | .integer => "integer"
  | .number => "number"
  | .boolean => "boolean"

/-- Modelled from the spec: the type cast and validation engine (the
`set_type` machinery of the missing library).  Given a field's declared type
and constraints and a textual or already-typed value, produce the typed
value or fail with a `CastError` carrying field name, raw value and violated
constraint. -/
def castField (f : Field) (v : Value) : Except CastError Value :=
  match f.ftype, v with
  | .string, .str s => .ok (.str s)
  | .integer, .int n => .ok (.int n)
  | .integer, .str s =>
    match parseIntChars s.data with
    | some n => .ok (.int n)
    | none => .error ⟨f.name, v, "type: " ++ typeName .integer⟩
  | .number, .num m e => .ok (.num m e)
  | .number, .int n => .ok (.num n 0)
  | .number, .str s =>
    match parseNumChars (degroup f.constraints s) with
    | some me => .ok (.num me.1 me.2)
    | none => .error ⟨f.name, v, "type: " ++ typeName .number⟩
  | .boolean, .bool b => .ok (.bool b)
  | .boolean, .str s =>
    if s = "true" then .ok (.bool true)
    else if s = "false" then .ok (.bool false)
    else .error ⟨f.name, v, "type: " ++ typeName .boolean⟩
  | ft, w => .error ⟨f.name, w, "type: " ++ typeName ft⟩

/-- Character of a decimal digit. -/
def dChar (d : Nat) : Char := Char.ofNat (48 + d)

/-- Big-endian decimal digit characters of a natural number. -/
def natChars (n : Nat) : List Char :=
  if n = 0 then ['0'] else (Nat.digits 10 n).reverse.map dChar

/-- Decimal digit characters of an integer, with a leading minus sign when
negative. -/
def intChars (i : Int) : List Char :=
  if i < 0 then '-' :: natChars i.natAbs else natChars i.natAbs

/-- Digit characters of a mantissa, zero-padded on the left so that at least
one digit precedes the decimal point of a number with e decimal places. -/
def paddedDigits (n e : Nat) : List Char :=
  List.replicate (e + 1 - (natChars n).length) '0' ++ natChars n

/-- Decimal rendering of an exact decimal number given by mantissa and
decimal-place count. -/
def numChars (m : Int) (e : Nat) : List Char :=
  (if m < 0 then ['-'] else [])
    ++ (paddedDigits m.natAbs e).take ((paddedDigits m.natAbs e).length - e)
    ++ (if e = 0 then []
        else '.' :: (paddedDigits m.natAbs e).drop ((paddedDigits m.natAbs e).length - e))

/-- Modelled from the spec: the textual form a sink writes for a typed value
in the row-data file. -/
def serializeValue : Value → String
  | .str s => s
  | .int i => ⟨intChars i⟩
  | .num m e => ⟨numChars m e⟩
  | .bool b => if b then "true" else "false"

/-- Textual form of a row in the row-data file. -/
def serializeRow (r : Row) : List (String × String) :=
  r.map (fun kv => (kv.1, serializeValue kv.2))

/-- Modelled from the spec: what a sink persists — a schema/metadata
descriptor separate from the row-data files. -/
structure StoredPackage where
  descriptor : List (String × Schema)
  datasetName : Option String
  data : List (List (List (String × String)))
deriving DecidableEq

/-- Modelled from the spec: the sink (`dump_to_path`) materialization of a
package: the descriptor holds every resource's name and schema, the data
part holds every resource's serialized rows. -/
def dumpPackage (p : Package) : StoredPackage :=
  { descriptor := p.resources.map (fun r => (r.name, r.schema)),
    datasetName := p.datasetName,
    data := p.resources.map (fun r => r.rows.map serializeRow) }

/-- Lookup of a schema field by name. -/
def findField (sch : Schema) (k : String) : Option Field :=
  sch.fields.find? (fun f => f.name == k)

/-- Restore one stored cell using the declared type from the descriptor. -/
def loadCell (sch : Schema) (ks : String × String) : Except CastError (String × Value) :=
  match findField sch ks.1 with
  | some f => (castField f (.str ks.2)).map (fun v => (ks.1, v))
  | none => .error ⟨ks.1, .str ks.2, "unknown field"⟩

/-- Restore one stored row against the descriptor's schema. -/
def loadRow (sch : Schema) (sr : List (String × String)) : Except CastError Row :=
  sr.mapM (loadCell sch)

/-- Restore one resource from its descriptor entry and its data file. -/
def loadResource (q : (String × Schema) × List (List (String × String))) :
    Except CastError Resource :=
  (q.2.mapM (loadRow q.1.2)).map (fun rws => ⟨q.1.1, q.1.2, rws⟩)

/-- Modelled from the spec: the sink's companion reader, restoring typed
values from the descriptor without re-inference. -/
def loadPackage (sp : StoredPackage) : Except CastError Package :=
  ((sp.descriptor.zip sp.data).mapM loadResource).map
    (fun rs => ⟨rs, sp.datasetName⟩)

/-- A value inhabits its field's declared type. -/
def valueFitsType : FType → Value → Bool
  | .string, .str _ => true
  | .integer, .int _ => true
  | .number, .num _ _ => true
  | .boolean, .bool _ => true
  | _, _ => false

/-- A row cell is declared in the schema, matches its declared type, and its
field sets no grouping character (the serialized form is ungrouped). -/
def cellConforms (sch : Schema) (kv : String × Value) : Bool :=
  match findField sch kv.1 with
  | some f => valueFitsType f.ftype kv.2 && f.constraints.groupChar.isNone
  | none => false

/-- Every cell of the row conforms to the schema. -/
def rowConforms (sch : Schema) (r : Row) : Bool :=
  r.all (cellConforms sch)

/-- Every row of the resource conforms to its schema. -/
def resourceConforms (r : Resource) : Bool :=
  r.rows.all (rowConforms r.schema)

/-- Every resource of the package conforms to its schema. -/
def packageConforms (p : Package) : Bool :=
  p.resources.all resourceConforms

/-- Semantic type of an already-typed value, used for seed schema inference. -/
def typeOfValue : Value → FType
  | .str _ => .string
  | .int _ => .integer
  | .num _ _ => .number
  | .bool _ => .boolean

/-- Modelled from the spec: schema inference for a package seed — sample a
bounded prefix of the rows (here the first row) and derive each field's type
from its value. -/
def inferSchema (rows : List Row) : Schema :=
  match rows with
  | [] => ⟨[]⟩
  | r :: _ => ⟨r.map (fun kv => ⟨kv.1, typeOfValue kv.2, {}⟩)⟩

/-- Modelled from the spec: a classified pipeline step.  A row processor is
a Python function that may mutate its row in place and may return a
replacement, so it is modelled as producing the mutated row together with
the optional returned row.  A package processor's generator contract is
modelled by its two phases: the descriptor mutation yielded first, and the
per-resource row streams yielded afterwards (matched positionally to the
mutated package's resource list). -/
inductive Step where
  | seed (name : String) (rows : List Row)
  | row (f : Row → Row × Option Row)
  | rows (g : List Row → List Row)
  | pkg (descF : Package → Package) (rowsF : Package → List (List Row))
  | dump (path : String)
  | checkpoint (name : String)

/-- Semantics of invoking a row processor on one row: the returned row if
any, otherwise the in-place-mutated row. -/
def applyRowProc (f : Row → Row × Option Row) (r : Row) : Row :=
  match f r with
  | (_, some ret) => ret
  | (mutated, none) => mutated

/-- Modelled from the spec: the package transformation performed by one
non-checkpoint step.  A row processor wraps every resource's rows; a rows
processor replaces each resource's rows wholesale; a package processor
first applies its descriptor mutation, then replaces the row streams
positionally (resources it does not re-yield are dropped); a sink passes
the package through. -/
def applyStep (s : Step) (p : Package) : Package :=
  match s with
  | .seed name rs =>
    { p with resources := p.resources ++ [⟨name, inferSchema rs, rs⟩] }
  | .row f =>
    { p with resources :=
        p.resources.map (fun r => { r with rows := r.rows.map (applyRowProc f) }) }
  | .rows g =>
    { p with resources := p.resources.map (fun r => { r with rows := g r.rows }) }
  | .pkg descF rowsF =>
    let p1 := descF p
    { p1 with resources :=
        (p1.resources.zip (rowsF p1)).map (fun q => { q.1 with rows := q.2 }) }
  | .dump _ => p
  | .checkpoint _ => p

/-- Modelled from the spec: the checkpoint store, a durable mapping from
checkpoint name to a package snapshot. -/
def Store : Type := String → Option Package

/-- The store with no records. -/
def emptyStore : Store := fun _ => none

/-- Add a record to the store. -/
def storeInsert (s : Store) (k : String) (p : Package) : Store :=
  fun k2 => if k2 = k then some p else s k2

/-- The state threaded through a run: the current package and the checkpoint
store. -/
structure RState where
  pkg : Package
  store : Store

/-- Modelled from the spec: the effect of one step on the run state.  At a
checkpoint, an existing record replaces the current package (the work of the
preceding steps is discarded); otherwise the full current package is
persisted under the name and the step is a pass-through. -/
def stepState (s : Step) (st : RState) : RState :=
  match s with
  | .checkpoint n =>
    match st.store n with
    | some saved => { st with pkg := saved }
    | none => { st with store := storeInsert st.store n st.pkg }
  | .seed nm rs => { st with pkg := applyStep (.seed nm rs) st.pkg }
  | .row f => { st with pkg := applyStep (.row f) st.pkg }
  | .rows g => { st with pkg := applyStep (.rows g) st.pkg }
  | .pkg dF rF => { st with pkg := applyStep (.pkg dF rF) st.pkg }
  | .dump path => { st with pkg := applyStep (.dump path) st.pkg }

/-- Modelled from the spec: execution of the ordered step list, threading
the current package and the checkpoint store. -/
def runSteps : List Step → RState → RState
  | [], st => st
  | s :: rest, st => runSteps rest (stepState s st)

/-- Whether a step is a checkpoint step. -/
def isCheckpoint : Step → Bool
  | .checkpoint _ => true
  | _ => false

/-- No step of the list is a checkpoint. -/
def checkpointFree (l : List Step) : Bool :=
  l.all (fun s => !isCheckpoint s)

/-- The names of the checkpoint steps of the list, in order. -/
def checkpointNames (l : List Step) : List String :=
  l.filterMap (fun s => match s with | .checkpoint n => some n | _ => none)

/-- Pure package transformation of a step list that touches no store. -/
def applySteps (l : List Step) (p : Package) : Package :=
  l.foldl (fun q s => applyStep s q) p

/-- A value of the summary record returned by `process`. -/
inductive SVal where
  | nat (n : Nat)
  | str (s : String)
  | optStr (o : Option String)
deriving DecidableEq

/-- Total number of rows over all resources of a package. -/
def totalRows (p : Package) : Nat :=
  (p.resources.map (fun r => r.rows.length)).sum

/-- Concatenated text of all stored cells, standing for the bytes a sink
writes to the row-data files. -/
def storedText (sp : StoredPackage) : String :=
  String.join (sp.data.map (fun rs =>
    String.join (rs.map (fun row =>
      String.join (row.map (fun kv => kv.1 ++ "=" ++ kv.2))))))

/-- A deterministic content hash of a character list. -/
def hashChars (l : List Char) : Nat :=
  l.foldl (fun a c => (a * 31 + c.toNat) % 1000000007) 7

/-- Modelled from the spec: the summary record a sink (`dump_to_path`)
returns — total row count, total byte size, a content hash, and the optional
dataset name. -/
def dumpSummary (_path : String) (p : Package) : List (String × SVal) :=
  [("count_of_rows", .nat (totalRows p)),
   ("bytes", .nat (storedText (dumpPackage p)).length),
   ("hash", .nat (hashChars (storedText (dumpPackage p)).data)),
   ("dataset_name", .optStr p.datasetName)]

/-- Whether a step is a sink (`dump_to_path`) step. -/
def isDump : Step → Bool
  | .dump _ => true
  | _ => false

/-- Modelled from the spec: the per-run summary accumulation — only a sink
step contributes a summary record. -/
def runSummary : List Step → RState → List (String × SVal) → List (String × SVal)
  | [], _, acc => acc
  | s :: rest, st, acc =>
    runSummary rest (stepState s st)
      (match s with
       | .dump path => dumpSummary path st.pkg
       | _ => acc)

/-- The initial run state: an empty package and the ambient store. -/
def initState (s : Store) : RState := ⟨⟨[], none⟩, s⟩

/-- Modelled from the spec: the top-level run contract — the fully
materialized package and the summary mapping. -/
def process (steps : List Step) (s : Store) : Package × List (String × SVal) :=
  ((runSteps steps (initState s)).pkg, runSummary steps (initState s) [])

/-- Materialized row data of a run, the first component of `results()`. -/
def results (steps : List Step) (s : Store) : List (List Row) :=
  (runSteps steps (initState s)).pkg.resources.map (fun r => r.rows)

/-- Modelled from the spec: the build-time error for a step whose parameter
shape cannot be classified. -/
structure StepSignatureError where
  msg : String
deriving DecidableEq

/-- The four step kinds of the dispatch contract. -/
inductive StepKind where
  | rowK
  | rowsK
  | pkgK
  | seedK
deriving DecidableEq

/-- Modelled from the spec: an unclassified user-supplied step — the list of
parameter names its callable declares (`none` when it is a plain iterable
value rather than a callable), together with the behaviours it would have
under each call shape. -/
structure RawStep where
  params : Option (List String)
  rowImpl : Row → Row × Option Row
  rowsImpl : List Row → List Row
  pkgDescImpl : Package → Package
  pkgRowsImpl : Package → List (List Row)
  seedName : String
  seedRows : List Row

/-- Modelled from the spec: classify a step's kind from the shape of the
parameters it declares, in the fixed priority row, rows, package, then
value-producing seed; an unrecognized shape yields no kind. -/
def classifyShape : Option (List String) → Option StepKind
  | none => some .seedK
  | some l =>
    if l = ["row"] then some .rowK
    else if l = ["rows"] then some .rowsK
    else if l = ["package"] then some .pkgK
    else if l = [] then some .seedK
    else none

/-- The classified step of a raw step under a given kind. -/
def stepOfKind (r : RawStep) : StepKind → Step
  | .rowK => .row r.rowImpl
  | .rowsK => .rows r.rowsImpl
  | .pkgK => .pkg r.pkgDescImpl r.pkgRowsImpl
  | .seedK => .seed r.seedName r.seedRows

/-- Modelled from the spec: classify one step at build time; a package seed
is legal only as the first step, and an unclassifiable shape fails with a
`StepSignatureError`. -/
def classifyStep (r : RawStep) (isFirst : Bool) : Except StepSignatureError Step :=
  match classifyShape r.params with
  | some .seedK =>
    if isFirst then .ok (.seed r.seedName r.seedRows)
    else .error ⟨"value-producing step is only legal as the first step"⟩
  | some k => .ok (stepOfKind r k)
  | none => .error ⟨"cannot classify step parameters"⟩

/-- Positional classification of the whole step list. -/
def buildFlowAux : List RawStep → Bool → Except StepSignatureError (List Step)
  | [], _ => .ok []
  | r :: rest, first =>
    match classifyStep r first, buildFlowAux rest false with
    | .ok s, .ok t => .ok (s :: t)
    | .error e, _ => .error e
    | .ok _, .error e => .error e

/-- Modelled from the spec: build the pipeline — every step is classified
exactly once, before any row is processed. -/
def buildFlow (rs : List RawStep) : Except StepSignatureError (List Step) :=
  buildFlowAux rs true

/-- Modelled from the spec: the end-to-end contract — classification at
build time, then execution over the classified steps only; a build-time
failure aborts before any row is processed. -/
def processFlow (rs : List RawStep) (s : Store) :
    Except StepSignatureError (Package × List (String × SVal)) :=
  (buildFlow rs).map (fun steps => process steps s)

mutual

/-- Modelled from the spec: an entry of a pipeline, either a plain step or a
nested sub-pipeline. -/
inductive FlowItem where
  | step : Step → FlowItem
  | sub : FlowSteps → FlowItem

/-- Modelled from the spec: an ordered pipeline whose entries may themselves
be pipelines. -/
inductive FlowSteps where
  | nil : FlowSteps
  | cons : FlowItem → FlowSteps → FlowSteps

end

mutual

/-- Build-time flattening of one pipeline entry into leaf steps. -/
def flattenItem : FlowItem → List Step
  | .step s => [s]
  | .sub f => flattenFlow f

/-- Modelled from the spec: build-time recursive flattening of a nested
pipeline into the single ordered list of its leaf steps. -/
def flattenFlow : FlowSteps → List Step
  | .nil => []
  | .cons i rest => flattenItem i ++ flattenFlow rest

end

mutual

/-- Direct execution of one pipeline entry (a nested pipeline runs its own
entries in order on the threaded state). -/
def runItem : FlowItem → RState → RState
  | .step s, st => stepState s st
  | .sub f, st => runNested f st

/-- Direct execution of a nested pipeline without prior flattening. -/
def runNested : FlowSteps → RState → RState
  | .nil, st => st
  | .cons i rest, st => runNested rest (runItem i st)

end

/-- Character lowercasing over ASCII letters. -/
def lowerChar (c : Char) : Char :=
  if 65 ≤ c.toNat ∧ c.toNat ≤ 90 then Char.ofNat (c.toNat + 32) else c

/-- String lowercasing, the model of Python's `str.lower`. -/
def lowerString (s : String) : String := ⟨s.data.map lowerChar⟩

/-- Character uppercasing over ASCII letters. -/
def upperChar (c : Char) : Char :=
  if 97 ≤ c.toNat ∧ c.toNat ≤ 122 then Char.ofNat (c.toNat - 32) else c

/-- String uppercasing, the model of Python's `str.upper`. -/
def upperString (s : String) : String := ⟨s.data.map upperChar⟩

/-- Tutorial row processor `lowerData`: `row['data'] = row['data'].lower()`
— it mutates the row in place and returns nothing. -/
def lowerData (row : Row) : Row × Option Row :=
  match getField row "data" with
  | some (.str s) => (setField row "data" (.str (lowerString s)), none)
  | _ => (row, none)

/-- The tutorial's hello-world input data. -/
def helloData : List Row :=
  [[("data", .str "Hello")], [("data", .str "World")]]

/-- The new field appended by the tutorial's guitarist package processor. -/
def isGuitaristField : Field := ⟨"is_guitarist", .boolean, {}⟩

/-- Tutorial package processor `add_is_guitarist_column_to_schema`,
descriptor phase: append the `is_guitarist` boolean field to the first
resource's schema, then yield the modified datapackage. -/
def add_is_guitarist_column_to_schema : Package → Package :=
  fun p =>
    { p with resources :=
        match p.resources with
        | [] => []
        | r :: rest =>
          { r with schema := ⟨r.schema.fields ++ [isGuitaristField]⟩ } :: rest }

/-- Row-stream phase of a package processor that re-yields every resource
unchanged (`yield from package`). -/
def passThroughRows : Package → List (List Row) :=
  fun p => p.resources.map (fun r => r.rows)

/-- Tutorial row processor `add_is_guitarist_column`:
`row['is_guitarist'] = row['instrument'] == 'guitar'`. -/
def add_is_guitarist_column (row : Row) : Row × Option Row :=
  match getField row "instrument" with
  | some v =>
    (setField row "is_guitarist" (.bool (decide (v = Value.str "guitar"))), none)
  | none => (row, none)

/-- The tutorial's beatles.csv rows. -/
def beatlesData : List Row :=
  [[("name", .str "john"), ("instrument", .str "guitar")],
   [("name", .str "paul"), ("instrument", .str "bass")],
   [("name", .str "george"), ("instrument", .str "guitar")],
   [("name", .str "ringo"), ("instrument", .str "drums")]]

/-- Tutorial row processor `upper` of `text_processing_flow`: uppercase
every cell of the row in place. -/
def upper (row : Row) : Row × Option Row :=
  (row.map (fun kv => (kv.1,
    match kv.2 with
    | .str s => Value.str (upperString s)
    | v => v)), none)

/-- Tutorial row processor `star_letter` of `text_processing_flow`: replace
the character at the captured index of every cell with a star. -/
def star_letter (idx : Nat) (row : Row) : Row × Option Row :=
  (row.map (fun kv => (kv.1,
    match kv.2 with
    | .str s => Value.str ⟨s.data.set idx '*'⟩
    | v => v)), none)

/-- Tutorial row processor `print_foo` of `text_processing_flow`: printing
only — the row passes through unchanged. -/
def print_foo (row : Row) : Row × Option Row := (row, none)

/-- Tutorial nested flow `text_processing_flow(star_letter_idx)`:
`Flow(upper, star_letter, print_foo)`. -/
def text_processing_flow (star_letter_idx : Nat) : FlowSteps :=
  .cons (.step (.row upper))
    (.cons (.step (.row (star_letter star_letter_idx)))
      (.cons (.step (.row print_foo)) .nil))


/-- Every character of the list is a decimal digit character. -/
def AllDigit (l : List Char) : Prop := ∀ c ∈ l, ∃ d, d < 10 ∧ c = dChar d

/-- Modelled from the spec: whether a raw step's shape is legal at its
position — classifiable, and a seed only in first position. -/
def shapeLegal (r : RawStep) (first : Bool) : Bool :=
  match classifyShape r.params with
  | none => false
  | some .seedK => first
  | some _ => true

/-- Positional legality of a whole raw step list. -/
def flowLegalAux : List RawStep → Bool → Bool
  | [], _ => true
  | r :: t, b => shapeLegal r b && flowLegalAux t false

/-- Legality of a raw step list as a pipeline. -/
def flowLegal (rs : List RawStep) : Bool := flowLegalAux rs true

/-- The step a raw step classifies to, determined by its parameter shape
alone. -/
def classifiedStep (r : RawStep) : Step :=
  match classifyShape r.params with
  | some k => stepOfKind r k
  | none => .seed r.seedName r.seedRows

/-- The shape-determined classification of a whole step list. -/
def classifyAll (rs : List RawStep) : List Step := rs.map classifiedStep

/-- The tutorial's hello-world data supplied as a raw (unclassified) step. -/
def rawDataStep : RawStep :=
  { params := none, rowImpl := fun r => (r, none), rowsImpl := fun rs => rs,
    pkgDescImpl := fun p => p, pkgRowsImpl := passThroughRows,
    seedName := "res_1", seedRows := helloData }

/-- The tutorial's lowerData function as a raw step declaring a row
parameter. -/
def rawLowerStep : RawStep :=
  { rawDataStep with params := some ["row"], rowImpl := lowerData }

/-- The field of the C8 scenario: field a declared integer. -/
def aIntegerField : Field := { name := "a", ftype := .integer }

/-- A concrete typed package exercising all four field types. -/
def samplePackage : Package :=
  ⟨[⟨"res_1",
     ⟨[⟨"name", .string, {}⟩, ⟨"population", .number, {}⟩,
       ⟨"year", .integer, {}⟩, ⟨"active", .boolean, {}⟩]⟩,
     [[("name", .str "China"), ("population", .num 1394720000 0),
       ("year", .int 2018), ("active", .bool true)],
      [("name", .str "x"), ("population", .num (-1205) 2),
       ("year", .int (-3)), ("active", .bool false)]]⟩], some "pops"⟩

theorem digitVal_dChar {d : Nat} (h : d < 10) : digitVal (dChar d) = some d := by
  interval_cases d <;> rfl

theorem dChar_ne_minus {d : Nat} (h : d < 10) : dChar d ≠ '-' := by
  interval_cases d <;> decide

theorem dChar_bne_dot {d : Nat} (h : d < 10) : (dChar d != '.') = true := by
  interval_cases d <;> decide

theorem dChar_beq_dot {d : Nat} (h : d < 10) : (dChar d == '.') = false := by
  interval_cases d <;> decide

theorem parseNatAux_map (l : List Nat) (h : ∀ d ∈ l, d < 10) :
    ∀ acc, parseNatAux (l.map dChar) acc = some (l.foldl (fun a d => a * 10 + d) acc) := by
  induction l with
  | nil => intro acc; rfl
  | cons d t ih =>
    intro acc
    have hd : d < 10 := h d (List.mem_cons_self d t)
    simp only [List.map_cons, parseNatAux, digitVal_dChar hd, List.foldl_cons]
    exact ih (fun x hx => h x (List.mem_cons_of_mem d hx)) (acc * 10 + d)

theorem foldl_rev_ofDigits (l : List Nat) (acc : Nat) :
    l.reverse.foldl (fun a d => a * 10 + d) acc = acc * 10 ^ l.length + Nat.ofDigits 10 l := by
  induction l generalizing acc with
  | nil => simp [Nat.ofDigits_nil]
  | cons d t ih =>
    rw [List.reverse_cons, List.foldl_append]
    simp only [List.foldl_cons, List.foldl_nil]
    rw [ih, Nat.ofDigits_cons, List.length_cons, pow_succ]
    ring

theorem parseNatAux_natChars (n : Nat) : parseNatAux (natChars n) 0 = some n := by
  by_cases h : n = 0
  · subst h; rfl
  · unfold natChars
    rw [if_neg h]
    have hlt : ∀ d ∈ (Nat.digits 10 n).reverse, d < 10 := fun d hd =>
      Nat.digits_lt_base (by norm_num) (List.mem_reverse.mp hd)
    rw [parseNatAux_map _ hlt 0]
    have := foldl_rev_ofDigits (Nat.digits 10 n) 0
    rw [this, Nat.ofDigits_digits]
    simp

theorem natChars_ne_nil (n : Nat) : natChars n ≠ [] := by
  unfold natChars
  split
  · simp
  · have hd : Nat.digits 10 n ≠ [] := Nat.digits_ne_nil_iff_ne_zero.mpr (by assumption)
    simp [hd]

theorem allDigit_natChars (n : Nat) : AllDigit (natChars n) := by
  intro c hc
  unfold natChars at hc
  split at hc
  · simp at hc
    exact ⟨0, by norm_num, by rw [hc]; rfl⟩
  · obtain ⟨d, hd, hq⟩ := List.mem_map.mp hc
    exact ⟨d, Nat.digits_lt_base (by norm_num) (List.mem_reverse.mp hd), hq.symm⟩

theorem parseNatAux_replicate_zero (k : Nat) (cs : List Char) :
    parseNatAux (List.replicate k '0' ++ cs) 0 = parseNatAux cs 0 := by
  induction k with
  | zero => rfl
  | succ k ih =>
    rw [List.replicate_succ, List.cons_append]
    have h0 : digitVal '0' = some 0 := rfl
    simp only [parseNatAux, h0]
    simpa using ih

theorem parseNatChars_eq (cs : List Char) (h : cs ≠ []) :
    parseNatChars cs = parseNatAux cs 0 := by
  cases cs
  · exact absurd rfl h
  · rfl

theorem takeWhile_append_stop (p : Char → Bool) (as bs : List Char) (b : Char)
    (ha : ∀ a ∈ as, p a = true) (hb : p b = false) :
    (as ++ b :: bs).takeWhile p = as := by
  induction as with
  | nil => simp [List.takeWhile_cons, hb]
  | cons a t ih =>
    have hpa := ha a (List.mem_cons_self a t)
    simp [List.takeWhile_cons, hpa]
    exact ih (fun x hx => ha x (List.mem_cons_of_mem a hx))

theorem dropWhile_append_stop (p : Char → Bool) (as bs : List Char) (b : Char)
    (ha : ∀ a ∈ as, p a = true) (hb : p b = false) :
    (as ++ b :: bs).dropWhile p = b :: bs := by
  induction as with
  | nil => simp [List.dropWhile_cons, hb]
  | cons a t ih =>
    have hpa := ha a (List.mem_cons_self a t)
    simp [List.dropWhile_cons, hpa]
    exact ih (fun x hx => ha x (List.mem_cons_of_mem a hx))

theorem allDigit_append {l m : List Char} (hl : AllDigit l) (hm : AllDigit m) :
    AllDigit (l ++ m) := by
  intro c hc
  rcases List.mem_append.mp hc with h | h
  · exact hl c h
  · exact hm c h

theorem allDigit_replicate_zero (k : Nat) : AllDigit (List.replicate k '0') := by
  intro c hc
  rw [List.eq_of_mem_replicate hc]
  exact ⟨0, by norm_num, rfl⟩

theorem allDigit_take {l : List Char} (h : AllDigit l) (n : Nat) : AllDigit (l.take n) :=
  fun c hc => h c (List.mem_of_mem_take hc)

theorem allDigit_drop {l : List Char} (h : AllDigit l) (n : Nat) : AllDigit (l.drop n) :=
  fun c hc => h c (List.mem_of_mem_drop hc)

theorem parseUnsignedNum_digits (ds : List Char) (hne : ds ≠ []) (h : AllDigit ds)
    (n : Nat) (hp : parseNatAux ds 0 = some n) :
    parseUnsignedNum ds = some (n, 0) := by
  have hdw : ds.dropWhile (fun c => c != '.') = [] :=
    List.dropWhile_eq_nil_iff.mpr (fun x hx => by
      obtain ⟨d, hd, rfl⟩ := h x hx
      simp [dChar_bne_dot hd])
  unfold parseUnsignedNum
  rw [hdw]
  rw [parseNatChars_eq ds hne, hp]
  rfl

theorem parseUnsignedNum_with_dot (ip fp : List Char) (hip : AllDigit ip) (hfp : AllDigit fp)
    (hne : ip ++ fp ≠ []) (n : Nat) (hp : parseNatAux (ip ++ fp) 0 = some n) :
    parseUnsignedNum (ip ++ '.' :: fp) = some (n, fp.length) := by
  have hipd : ∀ a ∈ ip, (fun c => c != '.') a = true := fun a ha => by
    obtain ⟨d, hd, rfl⟩ := hip a ha
    simp [dChar_bne_dot hd]
  have hdot : (fun c => c != '.') '.' = false := by simp
  have htw := takeWhile_append_stop _ ip fp '.' hipd hdot
  have hdw := dropWhile_append_stop _ ip fp '.' hipd hdot
  have hany : fp.any (fun c => c == '.') = false := by
    rw [List.any_eq_false]
    intro x hx
    obtain ⟨d, hd, rfl⟩ := hfp x hx
    simp [dChar_beq_dot hd]
  unfold parseUnsignedNum
  rw [htw, hdw]
  simp only [hany, if_false, Bool.false_eq_true]
  rw [parseNatChars_eq _ hne, hp]
  rfl

theorem paddedDigits_length (n e : Nat) : e + 1 ≤ (paddedDigits n e).length := by
  unfold paddedDigits
  rw [List.length_append, List.length_replicate]
  have := List.length_pos.mpr (natChars_ne_nil n)
  omega

theorem allDigit_paddedDigits (n e : Nat) : AllDigit (paddedDigits n e) :=
  allDigit_append (allDigit_replicate_zero _) (allDigit_natChars n)

theorem parseNatAux_paddedDigits (n e : Nat) : parseNatAux (paddedDigits n e) 0 = some n := by
  unfold paddedDigits
  rw [parseNatAux_replicate_zero, parseNatAux_natChars]

theorem paddedDigits_ne_nil (n e : Nat) : paddedDigits n e ≠ [] := by
  have := paddedDigits_length n e
  intro h
  rw [h] at this
  simp at this

theorem parseNumChars_minus (l : List Char) :
    parseNumChars ('-' :: l) = (parseUnsignedNum l).map (fun (p : Nat × Nat) => (-(p.1 : Int), p.2)) := by
  simp [parseNumChars]

theorem parseNumChars_head (c : Char) (cs : List Char) (h : ¬(c = '-')) :
    parseNumChars (c :: cs) = (parseUnsignedNum (c :: cs)).map (fun (p : Nat × Nat) => ((p.1 : Int), p.2)) := by
  simp [parseNumChars, h]

theorem parseIntChars_minus (cs : List Char) :
    parseIntChars ('-' :: cs) = (parseNatChars cs).map (fun (n : Nat) => -(n : Int)) := by
  simp [parseIntChars]

theorem parseIntChars_head (c : Char) (cs : List Char) (h : ¬(c = '-')) :
    parseIntChars (c :: cs) = (parseNatChars (c :: cs)).map (fun (n : Nat) => (n : Int)) := by
  simp [parseIntChars, h]

theorem parseNumChars_numChars (m : Int) (e : Nat) :
    parseNumChars (numChars m e) = some (m, e) := by
  have hlen := paddedDigits_length m.natAbs e
  have hall := allDigit_paddedDigits m.natAbs e
  have hpn := parseNatAux_paddedDigits m.natAbs e
  have hmabs : m < 0 → -((m.natAbs : Int)) = m := by omega
  have hmabs2 : ¬(m < 0) → ((m.natAbs : Int)) = m := by omega
  by_cases he : e = 0
  · subst he
    have htk : (paddedDigits m.natAbs 0).take ((paddedDigits m.natAbs 0).length - 0)
        = paddedDigits m.natAbs 0 := by
      rw [Nat.sub_zero, List.take_length]
    have hun : parseUnsignedNum (paddedDigits m.natAbs 0) = some (m.natAbs, 0) :=
      parseUnsignedNum_digits _ (paddedDigits_ne_nil _ _) hall _ hpn
    by_cases hm : m < 0
    · have hnc : numChars m 0 = '-' :: paddedDigits m.natAbs 0 := by
        unfold numChars
        rw [if_pos hm, if_pos rfl, htk]
        simp
      rw [hnc, parseNumChars_minus, hun, Option.map_some']
      show some (-((m.natAbs : Int)), 0) = some (m, 0)
      rw [hmabs hm]
    · have hnc : numChars m 0 = paddedDigits m.natAbs 0 := by
        unfold numChars
        rw [if_neg hm, if_pos rfl, htk]
        simp
      cases hcs : paddedDigits m.natAbs 0 with
      | nil => exact absurd hcs (paddedDigits_ne_nil _ _)
      | cons c cs =>
        have hc : c ∈ paddedDigits m.natAbs 0 := by
          rw [hcs]; exact List.mem_cons_self c cs
        obtain ⟨d, hd, hcd⟩ := hall c hc
        have hcm : ¬(c = '-') := by rw [hcd]; exact dChar_ne_minus hd
        rw [hnc, hcs, parseNumChars_head c cs hcm, ← hcs, hun, Option.map_some']
        show some (((m.natAbs : Int)), 0) = some (m, 0)
        rw [hmabs2 hm]
  · set P := paddedDigits m.natAbs e with hP
    set t := P.length - e with ht
    have hip : AllDigit (P.take t) := allDigit_take hall t
    have hfp : AllDigit (P.drop t) := allDigit_drop hall t
    have htd : P.take t ++ P.drop t = P := List.take_append_drop t P
    have hfl : (P.drop t).length = e := by
      rw [List.length_drop]
      omega
    have hun : parseUnsignedNum (P.take t ++ '.' :: P.drop t) = some (m.natAbs, e) := by
      have := parseUnsignedNum_with_dot (P.take t) (P.drop t) hip hfp
        (by rw [htd]; exact paddedDigits_ne_nil _ _) m.natAbs (by rw [htd]; exact hpn)
      rw [hfl] at this
      exact this
    by_cases hm : m < 0
    · have hnc : numChars m e = '-' :: (P.take t ++ '.' :: P.drop t) := by
        unfold numChars
        rw [if_pos hm, if_neg he]
        simp [hP]
      rw [hnc, parseNumChars_minus, hun, Option.map_some']
      show some (-((m.natAbs : Int)), e) = some (m, e)
      rw [hmabs hm]
    · have hnc : numChars m e = P.take t ++ '.' :: P.drop t := by
        unfold numChars
        rw [if_neg hm, if_neg he]
        simp [hP]
      have hlt : (P.take t).length = t := by
        rw [List.length_take]
        omega
      have hipne : P.take t ≠ [] := by
        intro hx
        rw [hx] at hlt
        simp at hlt
        omega
      cases hcs : P.take t with
      | nil => exact absurd hcs hipne
      | cons c cs =>
        have hc : c ∈ P.take t := by rw [hcs]; exact List.mem_cons_self c cs
        obtain ⟨d, hd, hcd⟩ := hip c hc
        have hcm : ¬(c = '-') := by rw [hcd]; exact dChar_ne_minus hd
        rw [hnc, hcs, List.cons_append, parseNumChars_head c _ hcm, ← List.cons_append,
          ← hcs, hun, Option.map_some']
        show some (((m.natAbs : Int)), e) = some (m, e)
        rw [hmabs2 hm]

theorem parseIntChars_intChars (i : Int) : parseIntChars (intChars i) = some i := by
  have habs : i < 0 → -((i.natAbs : Int)) = i := by omega
  have habs2 : ¬(i < 0) → ((i.natAbs : Int)) = i := by omega
  by_cases hm : i < 0
  · unfold intChars
    rw [if_pos hm, parseIntChars_minus, parseNatChars_eq _ (natChars_ne_nil _),
      parseNatAux_natChars, Option.map_some']
    show some (-((i.natAbs : Int))) = some i
    rw [habs hm]
  · unfold intChars
    rw [if_neg hm]
    cases hcs : natChars i.natAbs with
    | nil => exact absurd hcs (natChars_ne_nil _)
    | cons c cs =>
      have hc : c ∈ natChars i.natAbs := by rw [hcs]; exact List.mem_cons_self c cs
      obtain ⟨d, hd, hcd⟩ := allDigit_natChars _ c hc
      have hcm : ¬(c = '-') := by rw [hcd]; exact dChar_ne_minus hd
      rw [parseIntChars_head c cs hcm, ← hcs,
        parseNatChars_eq _ (natChars_ne_nil _), parseNatAux_natChars, Option.map_some']
      show some (((i.natAbs : Int))) = some i
      rw [habs2 hm]

theorem castField_serializeValue (f : Field) (v : Value)
    (hfit : valueFitsType f.ftype v = true) (hg : f.constraints.groupChar = none) :
    castField f (.str (serializeValue v)) = .ok v := by
  obtain ⟨nm, ft, cs⟩ := f
  cases ft <;> cases v <;> simp [valueFitsType] at hfit
  · rfl
  · show castField ⟨nm, .integer, cs⟩ (.str ⟨intChars _⟩) = _
    unfold castField
    simp only [String.data]
    rw [parseIntChars_intChars]
  · show castField ⟨nm, .number, cs⟩ (.str ⟨numChars _ _⟩) = _
    unfold castField
    unfold degroup
    have hg2 : cs.groupChar = none := hg
    simp only [hg2, String.data]
    rw [parseNumChars_numChars]
  · rename_i b
    cases b <;> rfl

theorem loadCell_serialize (sch : Schema) (kv : String × Value)
    (h : cellConforms sch kv = true) :
    loadCell sch (kv.1, serializeValue kv.2) = .ok kv := by
  obtain ⟨k, v⟩ := kv
  unfold cellConforms at h
  unfold loadCell
  cases hff : findField sch k with
  | none =>
    rw [hff] at h
    simp at h
  | some f =>
    rw [hff] at h
    simp only [Bool.and_eq_true, Option.isNone_iff_eq_none] at h
    simp only [hff]
    rw [castField_serializeValue f v h.1 h.2]
    rfl

theorem loadRow_serializeRow (sch : Schema) (r : Row) (h : rowConforms sch r = true) :
    loadRow sch (serializeRow r) = .ok r := by
  induction r with
  | nil => rfl
  | cons kv t ih =>
    unfold rowConforms at h
    simp only [List.all_cons, Bool.and_eq_true] at h
    have hc := loadCell_serialize sch kv h.1
    have ht := ih h.2
    unfold serializeRow at ht ⊢
    unfold loadRow at ht ⊢
    simp only [List.map_cons, List.mapM_cons, hc, ht]
    rfl

theorem mapM_loadRow (sch : Schema) (rows : List Row)
    (h : rows.all (rowConforms sch) = true) :
    (rows.map serializeRow).mapM (loadRow sch) = .ok rows := by
  induction rows with
  | nil => rfl
  | cons r t ih =>
    simp only [List.all_cons, Bool.and_eq_true] at h
    simp only [List.map_cons, List.mapM_cons, loadRow_serializeRow sch r h.1, ih h.2]
    rfl

theorem mapM_loadResource (rs : List Resource) (h : rs.all resourceConforms = true) :
    (rs.map (fun r => ((r.name, r.schema), r.rows.map serializeRow))).mapM loadResource
      = .ok rs := by
  induction rs with
  | nil => rfl
  | cons r t ih =>
    simp only [List.all_cons, Bool.and_eq_true] at h
    have hr : loadResource ((r.name, r.schema), r.rows.map serializeRow) = .ok r := by
      unfold loadResource
      simp only [mapM_loadRow r.schema r.rows h.1]
      rfl
    simp only [List.map_cons, List.mapM_cons, hr, ih h.2]
    rfl

/-- C9: materializing a package to the sink (schema descriptor separate
from row data) and reloading through the companion reader restores exactly
the same row values and declared types, with no re-inference — a
schema-preserving round trip, exact also for decimal number values. -/
theorem dump_load_roundtrip (p : Package) (h : packageConforms p = true) :
    loadPackage (dumpPackage p) = .ok p := by
  obtain ⟨rs, dn⟩ := p
  unfold packageConforms at h
  unfold loadPackage dumpPackage
  simp only [List.zip_map']
  rw [mapM_loadResource rs h]
  rfl

/-- Witness for dump_load_roundtrip at a concrete typed package. -/
theorem dump_load_roundtrip_witness :
    loadPackage (dumpPackage samplePackage) = .ok samplePackage :=
  dump_load_roundtrip samplePackage (by decide)

theorem runSteps_cons (s : Step) (rest : List Step) (st : RState) :
    runSteps (s :: rest) st = runSteps rest (stepState s st) := rfl

theorem runSteps_append (a b : List Step) (st : RState) :
    runSteps (a ++ b) st = runSteps b (runSteps a st) := by
  induction a generalizing st with
  | nil => rfl
  | cons s t ih => rw [List.cons_append, runSteps_cons, runSteps_cons, ih]

theorem stepState_not_cp (s : Step) (h : isCheckpoint s = false) (st : RState) :
    stepState s st = { st with pkg := applyStep s st.pkg } := by
  cases s <;> first | rfl | simp [isCheckpoint] at h

theorem stepState_cp_hit (n : String) (st : RState) (saved : Package)
    (h : st.store n = some saved) :
    stepState (.checkpoint n) st = { st with pkg := saved } := by
  simp [stepState, h]

theorem stepState_cp_miss (n : String) (st : RState) (h : st.store n = none) :
    stepState (.checkpoint n) st = { st with store := storeInsert st.store n st.pkg } := by
  simp [stepState, h]

theorem storeInsert_self (s : Store) (k : String) (p : Package) :
    storeInsert s k p k = some p := by
  unfold storeInsert
  simp

theorem storeInsert_other (s : Store) (k k2 : String) (p : Package) (h : ¬(k2 = k)) :
    storeInsert s k p k2 = s k2 := by
  unfold storeInsert
  rw [if_neg h]

theorem runSteps_store_mono (steps : List Step) (st : RState) (k : String) (v : Package)
    (h : st.store k = some v) : (runSteps steps st).store k = some v := by
  induction steps generalizing st with
  | nil => exact h
  | cons s rest ih =>
    rw [runSteps_cons]
    apply ih
    cases s
    case checkpoint n =>
      cases hn : st.store n with
      | some saved =>
        rw [stepState_cp_hit n st saved hn]
        exact h
      | none =>
        rw [stepState_cp_miss n st hn]
        show storeInsert st.store n st.pkg k = some v
        by_cases hk : k = n
        · subst hk
          rw [h] at hn
          cases hn
        · rw [storeInsert_other _ _ _ _ hk]
          exact h
    all_goals exact h

theorem runSteps_pkg_congr (steps : List Step) (st st2 : RState)
    (hpkg : st.pkg = st2.pkg)
    (h12 : ∀ k v, st.store k = some v → st2.store k = some v)
    (h2f : ∀ k v, st2.store k = some v → (runSteps steps st).store k = some v) :
    (runSteps steps st2).pkg = (runSteps steps st).pkg := by
  induction steps generalizing st st2 with
  | nil => exact hpkg.symm
  | cons s rest ih =>
    rw [runSteps_cons, runSteps_cons]
    cases s
    case checkpoint n =>
      cases hn : st.store n with
      | some saved =>
        have hn2 : st2.store n = some saved := h12 n saved hn
        rw [stepState_cp_hit n st saved hn, stepState_cp_hit n st2 saved hn2]
        apply ih
        · rfl
        · exact h12
        · intro k v hv
          have h3 := h2f k v hv
          rw [runSteps_cons, stepState_cp_hit n st saved hn] at h3
          exact h3
      | none =>
        rw [stepState_cp_miss n st hn]
        cases hn2 : st2.store n with
        | none =>
          rw [stepState_cp_miss n st2 hn2]
          apply ih
          · exact hpkg
          · intro k v hv
            have hv2 : storeInsert st.store n st.pkg k = some v := hv
            show storeInsert st2.store n st2.pkg k = some v
            by_cases hk : k = n
            · subst hk
              rw [storeInsert_self] at hv2
              rw [storeInsert_self, ← hpkg]
              exact hv2
            · rw [storeInsert_other _ _ _ _ hk] at hv2
              rw [storeInsert_other _ _ _ _ hk]
              exact h12 k v hv2
          · intro k v hv
            have hv2 : storeInsert st2.store n st2.pkg k = some v := hv
            by_cases hk : k = n
            · subst hk
              rw [storeInsert_self] at hv2
              apply runSteps_store_mono
              show storeInsert st.store k st.pkg k = some v
              rw [storeInsert_self, hpkg]
              exact hv2
            · rw [storeInsert_other _ _ _ _ hk] at hv2
              have h3 := h2f k v hv2
              rw [runSteps_cons, stepState_cp_miss n st hn] at h3
              exact h3
        | some w =>
          have hw : w = st.pkg := by
            have h1 := h2f n w hn2
            rw [runSteps_cons, stepState_cp_miss n st hn] at h1
            have h2 : (runSteps rest { st with store := storeInsert st.store n st.pkg }).store n
                = some st.pkg := by
              apply runSteps_store_mono
              exact storeInsert_self _ _ _
            rw [h1] at h2
            exact Option.some_injective _ h2
          rw [stepState_cp_hit n st2 w hn2]
          apply ih
          · exact hw.symm
          · intro k v hv
            have hv2 : storeInsert st.store n st.pkg k = some v := hv
            show st2.store k = some v
            by_cases hk : k = n
            · subst hk
              rw [storeInsert_self] at hv2
              rw [hn2, hw]
              exact hv2
            · rw [storeInsert_other _ _ _ _ hk] at hv2
              exact h12 k v hv2
          · intro k v hv
            have h3 := h2f k v hv
            rw [runSteps_cons, stepState_cp_miss n st hn] at h3
            exact h3
    all_goals {
      apply ih
      · simp only [stepState]
        rw [hpkg]
      · exact h12
      · intro k v hv
        exact h2f k v hv
    }

theorem checkpointNames_cons_cp (m : String) (rest : List Step) :
    checkpointNames (Step.checkpoint m :: rest) = m :: checkpointNames rest := by
  unfold checkpointNames
  rw [List.filterMap_cons]

theorem checkpointNames_cons_sub (s : Step) (rest : List Step) (k : String)
    (h : k ∉ checkpointNames (s :: rest)) : k ∉ checkpointNames rest := by
  intro hmem
  apply h
  unfold checkpointNames at hmem ⊢
  rw [List.filterMap_cons]
  cases s <;> simp [hmem]

theorem runSteps_fresh_key (steps : List Step) (p : Package) (s : Store) (k : String)
    (v : Package) (hk : k ∉ checkpointNames steps) (h0 : s k = none) :
    runSteps steps ⟨p, storeInsert s k v⟩
      = ⟨(runSteps steps ⟨p, s⟩).pkg, storeInsert (runSteps steps ⟨p, s⟩).store k v⟩ := by
  induction steps generalizing p s with
  | nil => rfl
  | cons hd rest ih =>
    have hk2 : k ∉ checkpointNames rest := checkpointNames_cons_sub hd rest k hk
    rw [runSteps_cons, runSteps_cons]
    cases hd
    case checkpoint m =>
      have hm : ¬(k = m) := by
        intro he
        subst he
        apply hk
        rw [checkpointNames_cons_cp]
        exact List.mem_cons_self k _
      cases hsm : s m with
      | some w =>
        have hins : storeInsert s k v m = some w := by
          rw [storeInsert_other _ _ _ _ (fun h => hm h.symm)]
          exact hsm
        rw [stepState_cp_hit m _ w hins, stepState_cp_hit m _ w hsm]
        exact ih w s hk2 h0
      | none =>
        have hins : storeInsert s k v m = none := by
          rw [storeInsert_other _ _ _ _ (fun h => hm h.symm)]
          exact hsm
        rw [stepState_cp_miss m _ hins, stepState_cp_miss m _ hsm]
        have hcomm : storeInsert (storeInsert s k v) m p = storeInsert (storeInsert s m p) k v := by
          funext k2
          unfold storeInsert
          by_cases h1 : k2 = k
          · subst h1
            simp [hm]
          · by_cases h2 : k2 = m
            · subst h2
              simp [h1]
            · simp [h1, h2]
        show runSteps rest ⟨p, storeInsert (storeInsert s k v) m p⟩ = _
        rw [hcomm]
        have hnew : (storeInsert s m p) k = none := by
          rw [storeInsert_other _ _ _ _ hm]
          exact h0
        exact ih p (storeInsert s m p) hk2 hnew
    all_goals {
      simp only [stepState]
      exact ih _ s hk2 h0
    }

theorem runSteps_checkpoint_free (l : List Step) (st : RState) (h : checkpointFree l = true) :
    runSteps l st = ⟨applySteps l st.pkg, st.store⟩ := by
  induction l generalizing st with
  | nil => rfl
  | cons s rest ih =>
    simp only [checkpointFree, List.all_cons, Bool.and_eq_true, Bool.not_eq_true'] at h
    rw [runSteps_cons, stepState_not_cp s h.1]
    have := ih { st with pkg := applyStep s st.pkg } (by
      simp only [checkpointFree]
      exact h.2)
    rw [this]
    rfl

/-- C5: the checkpoint step is conditional on the store's state: with an
existing record the work of every preceding step is discarded and the run
continues after the checkpoint from the stored package; with no record the
preceding steps execute normally, the complete package is persisted under
the name, and the checkpoint acts as a pass-through. -/
theorem checkpoint_step_semantics (pre rest : List Step) (n : String) (st : RState)
    (hfree : checkpointFree pre = true) :
    (∀ saved, st.store n = some saved →
      runSteps (pre ++ Step.checkpoint n :: rest) st = runSteps rest ⟨saved, st.store⟩)
    ∧ (st.store n = none →
      runSteps (pre ++ Step.checkpoint n :: rest) st
        = runSteps rest ⟨applySteps pre st.pkg,
            storeInsert st.store n (applySteps pre st.pkg)⟩) := by
  constructor
  · intro saved hs
    rw [runSteps_append, runSteps_checkpoint_free pre st hfree, runSteps_cons,
      stepState_cp_hit n ⟨applySteps pre st.pkg, st.store⟩ saved hs]
  · intro hs
    rw [runSteps_append, runSteps_checkpoint_free pre st hfree, runSteps_cons,
      stepState_cp_miss n ⟨applySteps pre st.pkg, st.store⟩ hs]

/-- Witness for checkpoint_step_semantics at a concrete flow. -/
theorem checkpoint_step_semantics_witness :
    runSteps ([Step.seed "res_1" helloData] ++ Step.checkpoint "cp" :: []) (initState emptyStore)
      = runSteps [] ⟨applySteps [Step.seed "res_1" helloData] (initState emptyStore).pkg,
          storeInsert (initState emptyStore).store "cp"
            (applySteps [Step.seed "res_1" helloData] (initState emptyStore).pkg)⟩ :=
  (checkpoint_step_semantics [Step.seed "res_1" helloData] [] "cp" (initState emptyStore)
    (by decide)).2 rfl

/-- C1: populating a checkpoint by one full run and then running
`checkpoint(name) :: rest` against the resulting store produces the same
final package as running `pre ++ rest` from scratch — checkpointing has no
semantic effect on downstream steps. -/
theorem checkpoint_resume_equivalence (pre rest : List Step) (n : String)
    (p1 : Package) (st : RState)
    (hfree : checkpointFree pre = true)
    (hfresh : st.store n = none)
    (hrest : n ∉ checkpointNames rest) :
    (runSteps (Step.checkpoint n :: rest)
        ⟨p1, (runSteps (pre ++ Step.checkpoint n :: rest) st).store⟩).pkg
      = (runSteps (pre ++ rest) st).pkg := by
  have hA : runSteps (pre ++ Step.checkpoint n :: rest) st
      = runSteps rest ⟨applySteps pre st.pkg, storeInsert st.store n (applySteps pre st.pkg)⟩ :=
    (checkpoint_step_semantics pre rest n st hfree).2 hfresh
  have hmono : (runSteps rest ⟨applySteps pre st.pkg,
      storeInsert st.store n (applySteps pre st.pkg)⟩).store n = some (applySteps pre st.pkg) :=
    runSteps_store_mono rest _ n _ (storeInsert_self _ _ _)
  rw [hA, runSteps_cons]
  rw [stepState_cp_hit n
    ⟨p1, (runSteps rest ⟨applySteps pre st.pkg,
      storeInsert st.store n (applySteps pre st.pkg)⟩).store⟩
    (applySteps pre st.pkg) hmono]
  have hcongr := runSteps_pkg_congr rest
    ⟨applySteps pre st.pkg, storeInsert st.store n (applySteps pre st.pkg)⟩
    ⟨applySteps pre st.pkg,
      (runSteps rest ⟨applySteps pre st.pkg,
        storeInsert st.store n (applySteps pre st.pkg)⟩).store⟩
    rfl
    (fun k v hv => runSteps_store_mono rest _ k v hv)
    (fun k v hv => hv)
  have hB : runSteps (pre ++ rest) st = runSteps rest ⟨applySteps pre st.pkg, st.store⟩ := by
    rw [runSteps_append, runSteps_checkpoint_free pre st hfree]
  have hfk := runSteps_fresh_key rest (applySteps pre st.pkg) st.store n
    (applySteps pre st.pkg) hrest hfresh
  rw [hB]
  have hfkp : (runSteps rest ⟨applySteps pre st.pkg,
      storeInsert st.store n (applySteps pre st.pkg)⟩).pkg
      = (runSteps rest ⟨applySteps pre st.pkg, st.store⟩).pkg := by
    rw [hfk]
  rw [← hfkp]
  exact hcongr

/-- Witness for checkpoint_resume_equivalence at a concrete flow. -/
theorem checkpoint_resume_equivalence_witness :
    (runSteps (Step.checkpoint "cp" :: [Step.row lowerData])
        ⟨⟨[], none⟩,
          (runSteps ([Step.seed "res_1" helloData] ++ Step.checkpoint "cp" :: [Step.row lowerData])
            (initState emptyStore)).store⟩).pkg
      = (runSteps ([Step.seed "res_1" helloData] ++ [Step.row lowerData])
          (initState emptyStore)).pkg :=
  checkpoint_resume_equivalence [Step.seed "res_1" helloData] [Step.row lowerData] "cp"
    ⟨[], none⟩ (initState emptyStore) (by decide) rfl (by decide)

mutual

theorem runItem_eq_flatten : ∀ (i : FlowItem) (st : RState),
    runItem i st = runSteps (flattenItem i) st
  | .step s, st => rfl
  | .sub f, st => by
    rw [show runItem (.sub f) st = runNested f st from rfl, runNested_eq_flatten f st]
    rfl

theorem runNested_eq_flatten : ∀ (f : FlowSteps) (st : RState),
    runNested f st = runSteps (flattenFlow f) st
  | .nil, st => rfl
  | .cons i rest, st => by
    rw [show runNested (.cons i rest) st = runNested rest (runItem i st) from rfl,
      runNested_eq_flatten rest (runItem i st), runItem_eq_flatten i st,
      show flattenFlow (.cons i rest) = flattenItem i ++ flattenFlow rest from rfl,
      runSteps_append]

end

/-- C6: a nested pipeline flattens at build time, recursively and order
preserving, into the single ordered list of its leaf steps, and executing
the nested pipeline produces a state identical to executing that flat list;
in particular this holds for the tutorial's text_processing_flow. -/
theorem nested_flow_flattening :
    (∀ (f : FlowSteps) (st : RState), runNested f st = runSteps (flattenFlow f) st)
    ∧ (∀ (star_letter_idx : Nat) (st : RState),
        runNested (text_processing_flow star_letter_idx) st
          = runSteps (flattenFlow (text_processing_flow star_letter_idx)) st) :=
  ⟨fun f st => runNested_eq_flatten f st,
   fun i st => runNested_eq_flatten (text_processing_flow i) st⟩

/-- C3: the engine applies a row processor as a per-row map over every
resource, preserving row count and order; a processor returning nothing is
treated as in-place mutation and its row is still yielded; the tutorial's
hello-world flow lowercases both rows. -/
theorem row_processor_equivalence :
    (∀ (f : Row → Row × Option Row) (p : Package),
      (applyStep (Step.row f) p).resources
        = p.resources.map (fun r => { r with rows := r.rows.map (applyRowProc f) }))
    ∧ (∀ (f : Row → Row × Option Row) (rows : List Row),
        (rows.map (applyRowProc f)).length = rows.length)
    ∧ (∀ (f : Row → Row × Option Row) (r mutated : Row),
        f r = (mutated, none) → applyRowProc f r = mutated)
    ∧ results [Step.seed "res_1" helloData, Step.row lowerData] emptyStore
        = [[[("data", Value.str "hello")], [("data", Value.str "world")]]] := by
  refine ⟨fun f p => rfl, fun f rows => List.length_map _ _, ?_, ?_⟩
  · intro f r mutated h
    unfold applyRowProc
    rw [h]
  · rfl

/-- Witness for row_processor_equivalence: the None-returning tutorial
processor lowerData still yields its (mutated) row. -/
theorem row_processor_equivalence_witness :
    applyRowProc lowerData [("data", Value.str "Hello")]
      = setField [("data", Value.str "Hello")] "data" (Value.str (lowerString "Hello")) :=
  row_processor_equivalence.2.2.1 lowerData [("data", Value.str "Hello")]
    (setField [("data", Value.str "Hello")] "data" (Value.str (lowerString "Hello"))) rfl

theorem find?_cons_pair_pos (q : String × Value) (l : Row) (k : String)
    (h : (q.1 == k) = true) :
    List.find? (fun p => p.1 == k) (q :: l) = some q := by
  simp [List.find?, h]

theorem find?_cons_pair_neg (q : String × Value) (l : Row) (k : String)
    (h : (q.1 == k) = false) :
    List.find? (fun p => p.1 == k) (q :: l) = List.find? (fun p => p.1 == k) l := by
  simp [List.find?, h]

theorem find?_map_set_hit (l : Row) (k : String) (v : Value)
    (h : List.any l (fun p => p.1 == k) = true) :
    List.find? (fun p => p.1 == k)
      (List.map (fun p => if p.1 == k then (k, v) else p) l) = some (k, v) := by
  induction l with
  | nil => simp at h
  | cons kv t ih =>
    rw [List.map_cons]
    cases hk : (kv.1 == k)
    · rw [if_neg (by simp [hk])]
      rw [find?_cons_pair_neg kv _ k hk]
      apply ih
      rw [List.any_cons] at h
      rcases Bool.or_eq_true_iff.mp h with h1 | h1
      · rw [h1] at hk
        cases hk
      · exact h1
    · rw [if_pos rfl]
      exact find?_cons_pair_pos (k, v) _ k (by simp)

theorem find?_append_singleton (l : Row) (k : String) (v : Value)
    (h : List.any l (fun p => p.1 == k) = false) :
    List.find? (fun p => p.1 == k) (l ++ [(k, v)]) = some (k, v) := by
  induction l with
  | nil => exact find?_cons_pair_pos (k, v) [] k (by simp)
  | cons kv t ih =>
    rw [List.any_cons] at h
    have h2 : (kv.1 == k) = false ∧ List.any t (fun p => p.1 == k) = false := by
      constructor
      · cases hx : (kv.1 == k)
        · rfl
        · rw [hx] at h
          simp at h
      · cases hx : List.any t (fun p => p.1 == k)
        · rfl
        · rw [hx] at h
          simp at h
    rw [List.cons_append, find?_cons_pair_neg kv _ k h2.1]
    exact ih h2.2

theorem getField_setField (r : Row) (k : String) (v : Value) :
    getField (setField r k v) k = some v := by
  unfold getField setField
  by_cases hany : List.any r (fun p => p.1 == k) = true
  · rw [if_pos hany]
    rw [find?_map_set_hit r k v hany]
    rfl
  · rw [if_neg hany]
    rw [find?_append_singleton r k v (Bool.eq_false_iff.mpr hany)]
    rfl

theorem zip_map_self_rows (l : List Resource) :
    (l.zip (l.map (fun r => r.rows))).map (fun q => { q.1 with rows := q.2 }) = l := by
  induction l with
  | nil => rfl
  | cons r t ih =>
    rw [List.map_cons, List.zip_cons_cons, List.map_cons, ih]

theorem applyStep_pkg_passthrough (dF : Package → Package) (p : Package) :
    applyStep (Step.pkg dF passThroughRows) p = dF p := by
  show { dF p with resources :=
      ((dF p).resources.zip (passThroughRows (dF p))).map (fun q => { q.1 with rows := q.2 }) }
    = dF p
  unfold passThroughRows
  rw [zip_map_self_rows]

/-- C4: a package processor's first yield (the mutated package) takes effect
before any rows are consumed, so appending a boolean field to the schema and
then mapping a row function that sets the field produces a first resource
whose schema contains the new field and whose every row carries a boolean
value for it. -/
theorem package_processor_schema_first (p : Package) (r0 : Resource) (rest : List Resource)
    (hres : p.resources = r0 :: rest)
    (hinstr : ∀ row ∈ r0.rows, (getField row "instrument").isSome = true) :
    ∃ r2 rest2,
      (applyStep (Step.row add_is_guitarist_column)
        (applyStep (Step.pkg add_is_guitarist_column_to_schema passThroughRows) p)).resources
        = r2 :: rest2
      ∧ isGuitaristField ∈ r2.schema.fields
      ∧ ∀ row ∈ r2.rows, ∃ b : Bool, getField row "is_guitarist" = some (Value.bool b) := by
  rw [applyStep_pkg_passthrough]
  have hstep : add_is_guitarist_column_to_schema p
      = { p with resources :=
          { r0 with schema := ⟨r0.schema.fields ++ [isGuitaristField]⟩ } :: rest } := by
    unfold add_is_guitarist_column_to_schema
    rw [hres]
  rw [hstep]
  refine ⟨_, _, rfl, ?_, ?_⟩
  · show isGuitaristField ∈ r0.schema.fields ++ [isGuitaristField]
    exact List.mem_append_right _ (List.mem_singleton_self _)
  · intro row hrow
    have hrow2 : row ∈ r0.rows.map (applyRowProc add_is_guitarist_column) := hrow
    obtain ⟨row0, hr0, hEq⟩ := List.mem_map.mp hrow2
    have hs := hinstr row0 hr0
    obtain ⟨v, hv⟩ := Option.isSome_iff_exists.mp hs
    have happ : applyRowProc add_is_guitarist_column row0
        = setField row0 "is_guitarist" (.bool (decide (v = Value.str "guitar"))) := by
      unfold applyRowProc add_is_guitarist_column
      rw [hv]
    rw [← hEq, happ]
    exact ⟨_, getField_setField _ _ _⟩

/-- Witness for package_processor_schema_first at the tutorial's beatles
resource. -/
theorem package_processor_schema_first_witness :
    ∃ r2 rest2,
      (applyStep (Step.row add_is_guitarist_column)
        (applyStep (Step.pkg add_is_guitarist_column_to_schema passThroughRows)
          ⟨[⟨"res_1", inferSchema beatlesData, beatlesData⟩], none⟩)).resources = r2 :: rest2
      ∧ isGuitaristField ∈ r2.schema.fields
      ∧ ∀ row ∈ r2.rows, ∃ b : Bool, getField row "is_guitarist" = some (Value.bool b) :=
  package_processor_schema_first ⟨[⟨"res_1", inferSchema beatlesData, beatlesData⟩], none⟩
    ⟨"res_1", inferSchema beatlesData, beatlesData⟩ [] rfl (by decide)

theorem classifyStep_ok (r : RawStep) (b : Bool) (h : shapeLegal r b = true) :
    classifyStep r b = .ok (classifiedStep r) := by
  unfold shapeLegal at h
  unfold classifyStep classifiedStep
  cases hc : classifyShape r.params with
  | none =>
    rw [hc] at h
    exact (Bool.false_ne_true h).elim
  | some k =>
    rw [hc] at h
    cases k
    · rfl
    · rfl
    · rfl
    · rw [if_pos (show b = true from h)]
      rfl

theorem classifyStep_err (r : RawStep) (b : Bool) (h : shapeLegal r b = false) :
    ∃ e, classifyStep r b = .error e := by
  unfold shapeLegal at h
  unfold classifyStep
  cases hc : classifyShape r.params with
  | none => exact ⟨_, rfl⟩
  | some k =>
    rw [hc] at h
    cases k
    · exact absurd (show true = false from h) (by decide)
    · exact absurd (show true = false from h) (by decide)
    · exact absurd (show true = false from h) (by decide)
    · have hb : b = false := h
      rw [hb]
      rw [if_neg Bool.false_ne_true]
      exact ⟨_, rfl⟩

theorem buildFlowAux_ok (rs : List RawStep) (b : Bool) (h : flowLegalAux rs b = true) :
    buildFlowAux rs b = .ok (rs.map classifiedStep) := by
  induction rs generalizing b with
  | nil => rfl
  | cons r t ih =>
    unfold flowLegalAux at h
    rw [Bool.and_eq_true] at h
    unfold buildFlowAux
    rw [classifyStep_ok r b h.1, ih false h.2]
    rfl

theorem buildFlowAux_err (rs : List RawStep) (b : Bool) (h : flowLegalAux rs b = false) :
    ∃ e, buildFlowAux rs b = .error e := by
  induction rs generalizing b with
  | nil => cases h
  | cons r t ih =>
    unfold flowLegalAux at h
    cases hs : shapeLegal r b with
    | false =>
      obtain ⟨e, he⟩ := classifyStep_err r b hs
      unfold buildFlowAux
      rw [he]
      exact ⟨e, rfl⟩
    | true =>
      rw [hs, Bool.true_and] at h
      obtain ⟨e, he⟩ := ih false h
      unfold buildFlowAux
      rw [classifyStep_ok r b hs, he]
      exact ⟨e, rfl⟩

/-- C2: each step's kind is fixed at build time by its declared parameter
shape in the fixed priority (row, rows, package, seed — the last legal only
first); an unclassifiable or misplaced shape fails the build with a
StepSignatureError before any row is processed, and the run consumes only
the classified steps. -/
theorem step_classification (rs : List RawStep) :
    (flowLegal rs = true → buildFlow rs = .ok (classifyAll rs))
    ∧ (∀ steps, buildFlow rs = .ok steps → steps = classifyAll rs)
    ∧ ((∃ e, buildFlow rs = .error e) ↔ flowLegal rs = false)
    ∧ (∀ e, buildFlow rs = .error e → processFlow rs emptyStore = .error e) := by
  refine ⟨fun h => buildFlowAux_ok rs true h, ?_, ?_, ?_⟩
  · intro steps h
    by_cases hl : flowLegal rs = true
    · have := buildFlowAux_ok rs true hl
      unfold buildFlow at h
      rw [this] at h
      cases h
      rfl
    · obtain ⟨e, he⟩ := buildFlowAux_err rs true (Bool.eq_false_iff.mpr hl)
      unfold buildFlow at h
      rw [he] at h
      cases h
  · constructor
    · rintro ⟨e, he⟩
      by_cases hl : flowLegal rs = true
      · have := buildFlowAux_ok rs true hl
        unfold buildFlow at he
        rw [this] at he
        cases he
      · exact Bool.eq_false_iff.mpr hl
    · intro h
      exact buildFlowAux_err rs true h
  · intro e he
    unfold processFlow
    rw [he]
    rfl

/-- Witness for step_classification at the tutorial's hello-world flow. -/
theorem step_classification_witness :
    buildFlow [rawDataStep, rawLowerStep] = .ok (classifyAll [rawDataStep, rawLowerStep]) :=
  (step_classification [rawDataStep, rawLowerStep]).1 (by decide)

theorem runSummary_no_dump (steps : List Step) (st : RState) (acc : List (String × SVal))
    (h : steps.all (fun s => !isDump s) = true) :
    runSummary steps st acc = acc := by
  induction steps generalizing st acc with
  | nil => rfl
  | cons s rest ih =>
    rw [List.all_cons, Bool.and_eq_true] at h
    cases s
    case dump path =>
      simp [isDump] at h
    all_goals exact ih _ _ h.2

theorem runSummary_ne_nil (steps : List Step) (st : RState) (acc : List (String × SVal))
    (h : acc ≠ []) : runSummary steps st acc ≠ [] := by
  induction steps generalizing st acc with
  | nil => exact h
  | cons s rest ih =>
    cases s
    case dump path =>
      exact ih (stepState (Step.dump path) st) (dumpSummary path st.pkg)
        (by unfold dumpSummary; exact List.cons_ne_nil _ _)
    all_goals exact ih _ _ h

theorem runSummary_has_dump (steps : List Step) (st : RState) (acc : List (String × SVal))
    (h : steps.all (fun s => !isDump s) = false) :
    runSummary steps st acc ≠ [] := by
  induction steps generalizing st acc with
  | nil => cases h
  | cons s rest ih =>
    rw [List.all_cons] at h
    cases s
    case dump path =>
      exact runSummary_ne_nil rest (stepState (Step.dump path) st)
        (dumpSummary path st.pkg) (by unfold dumpSummary; exact List.cons_ne_nil _ _)
    all_goals exact ih _ _ h

theorem runSummary_keys (steps : List Step) (st : RState) (acc : List (String × SVal))
    (h : acc = [] ∨ acc.map (fun q => q.1)
        = ["count_of_rows", "bytes", "hash", "dataset_name"]) :
    runSummary steps st acc = []
    ∨ (runSummary steps st acc).map (fun q => q.1)
        = ["count_of_rows", "bytes", "hash", "dataset_name"] := by
  induction steps generalizing st acc with
  | nil => exact h
  | cons s rest ih =>
    cases s
    case dump path =>
      exact ih (stepState (Step.dump path) st) (dumpSummary path st.pkg) (Or.inr rfl)
    all_goals exact ih _ _ h

/-- C10: a flow with no sink step yields an empty summary mapping from
process(); only a sink (dump) step contributes a summary record, whose keys
are count_of_rows, bytes, hash and dataset_name. -/
theorem process_summary (steps : List Step) (s : Store) :
    ((process steps s).2 = [] ↔ steps.all (fun st => !isDump st) = true)
    ∧ ((process steps s).2 = []
        ∨ (process steps s).2.map (fun q => q.1)
            = ["count_of_rows", "bytes", "hash", "dataset_name"]) := by
  constructor
  · constructor
    · intro h
      by_cases hall : steps.all (fun st => !isDump st) = true
      · exact hall
      · exact absurd h (runSummary_has_dump steps (initState s) []
          (Bool.eq_false_iff.mpr hall))
    · intro h
      exact runSummary_no_dump steps (initState s) [] h
  · exact runSummary_keys steps (initState s) [] (Or.inl rfl)

/-- C7: casting is deterministic — equal field type, constraints and input
value always produce identical outcomes (the same typed value or the same
CastError). -/
theorem cast_determinism (f g : Field) (v w : Value)
    (hn : f.name = g.name) (ht : f.ftype = g.ftype) (hc : f.constraints = g.constraints)
    (hv : v = w) : castField f v = castField g w := by
  obtain ⟨n1, t1, c1⟩ := f
  obtain ⟨n2, t2, c2⟩ := g
  have hn2 : n1 = n2 := hn
  have ht2 : t1 = t2 := ht
  have hc2 : c1 = c2 := hc
  subst hn2
  subst ht2
  subst hc2
  subst hv
  rfl

/-- Witness for cast_determinism: the same integer cast twice. -/
theorem cast_determinism_witness :
    castField aIntegerField (Value.str "12") = castField aIntegerField (Value.str "12") :=
  cast_determinism aIntegerField aIntegerField (Value.str "12") (Value.str "12")
    rfl rfl rfl rfl

/-- C8: a field a declared integer casts "12" to the native integer 12 and
fails on "x" with a CastError carrying the field name, the raw value and
the violated constraint. -/
theorem integer_cast_scenario :
    castField aIntegerField (Value.str "12") = .ok (Value.int 12)
    ∧ castField aIntegerField (Value.str "x")
        = .error ⟨"a", Value.str "x", "type: integer"⟩ :=
  ⟨rfl, rfl⟩

end Dataflows
